import Mathlib

/-!
Verification of the signaling relay and peer-session coordination protocol of a
WebRTC chat/video-call application (Fastify + socket.io backend `server.js`,
React `useWebRTC` hook on the client).

The backend keeps two JavaScript `Map`s (`rooms`, `users`) plus socket.io room
membership; we embed JS `Map` as an association list with in-place update
(`jsSet`), first-occurrence lookup (`jsGet`) and deletion (`jsDelete`), which
matches `Map` semantics whenever keys are distinct (they are, in every state
built by these operations).  Server event handlers become a step function
`stepS : ServerState → Ev → ServerState × List Emit`; emits record the
socket.io delivery target (`socket.emit`, `socket.to(room).emit`,
`io.to(room).emit`).  Fresh values produced by `uuidv4()` / `new Date()` are
modelled by a monotone counter `clock`.

The client-side `useWebRTC` hook becomes a state `ClientState` holding the
`peersRef` map (userId → peer-connection id), a heap of `RTCPeerConnection`
objects (`pcs`), the `remoteStreams` map and the local-stream/call flags; each
handler of the hook becomes a function `ClientState → … → ClientState × List ClientOut`.
-/

/-- JS `Map.get`: first binding of the key, if any. -/
def jsGet {α β : Type} [DecidableEq α] : List (α × β) → α → Option β
  | [], _ => none
  | (a, b) :: t, k => if a = k then some b else jsGet t k

/-- JS `Map.set`: replace the binding in place if the key is present, else append. -/
def jsSet {α β : Type} [DecidableEq α] : List (α × β) → α → β → List (α × β)
  | [], k, v => [(k, v)]
  | (a, b) :: t, k, v => if a = k then (k, v) :: t else (a, b) :: jsSet t k v

/-- JS `Map.delete`: remove the binding of the key. -/
def jsDelete {α β : Type} [DecidableEq α] : List (α × β) → α → List (α × β)
  | [], _ => []
  | (a, b) :: t, k => if a = k then t else (a, b) :: jsDelete t k

/-- JS `Array.from(map.values())`. -/
def jsValues {α β : Type} (l : List (α × β)) : List β := l.map (fun p => p.2)

/-- Update the value bound to a key in place (mutation of the stored object). -/
def jsUpdate {α β : Type} [DecidableEq α] : List (α × β) → α → (β → β) → List (α × β)
  | [], _, _ => []
  | (a, b) :: t, k, f => if a = k then (a, f b) :: t else (a, b) :: jsUpdate t k f

/-- Member record stored in `room.users` (`server.js` lines 43-47). -/
structure Member where
  id : String
  username : String
  joinedAt : Nat
deriving Repr, DecidableEq

/-- Chat message record (`server.js` lines 80-86); `uuidv4()` and the
timestamp are modelled by the server clock counter. -/
structure ChatMessage where
  id : Nat
  username : String
  message : String
  timestamp : Nat
  userId : String
deriving Repr, DecidableEq

/-- Room record (`server.js` lines 34-39). -/
structure Room where
  id : String
  users : List (String × Member)
  messages : List ChatMessage
  isVideoCall : Bool
deriving Repr, DecidableEq

/-- Entry of the global `users` map (`server.js` line 49). -/
structure UserInfo where
  roomId : String
  username : String
deriving Repr, DecidableEq

/-- socket.io delivery target of an emit. -/
inductive Target where
  | toSocket (sid : String)
  | toRoomExcept (room sender : String)
  | toRoom (room : String)
deriving Repr, DecidableEq

/-- Payloads of the events the server emits. -/
inductive Payload where
  | userJoined (userId username : String) (users : List Member)
  | roomJoined (roomId : String) (users : List Member) (messages : List ChatMessage)
      (isVideoCall : Bool)
  | newMessage (m : ChatMessage)
  | offerMsg (offer fromUserId : String)
  | answerMsg (answer fromUserId : String)
  | iceMsg (candidate fromUserId : String)
  | callStarted (initiatorId username : String)
  | callEnded (userId : String)
  | userLeft (userId username : String) (users : List Member)
deriving Repr, DecidableEq

/-- One server-side emit: delivery target plus payload. -/
structure Emit where
  target : Target
  payload : Payload
deriving Repr, DecidableEq

/-- The server's in-memory state: the `rooms` and `users` maps, the socket.io
room memberships created by `socket.join`, and a counter modelling the fresh
values produced by `uuidv4()` / `new Date()`. -/
structure ServerState where
  rooms : List (String × Room)
  users : List (String × UserInfo)
  socketRooms : List (String × List String)
  clock : Nat
deriving Repr, DecidableEq

/-- Client-to-server events handled in `io.on` (`server.js` lines 26-167);
`sid` is the socket id of the connection the handler runs for. -/
inductive Ev where
  | joinRoom (sid roomId username : String) (isVideoCall : Bool)
  | sendMessage (sid message : String)
  | webrtcOffer (sid targetUserId offer : String)
  | webrtcAnswer (sid targetUserId answer : String)
  | webrtcIce (sid targetUserId candidate : String)
  | startVideoCall (sid : String)
  | endVideoCall (sid : String)
  | disconnect (sid : String)
deriving Repr, DecidableEq

/-- The server starts with empty maps. -/
def initState : ServerState :=
  { rooms := [], users := [], socketRooms := [], clock := 0 }

/-- One step of the server: the event handler bodies of `server.js`,
returning the new state and the list of emits the handler performed. -/
def stepS (s : ServerState) (e : Ev) : ServerState × List Emit :=
  match e with
  | .joinRoom sid roomId username isVideoCall =>
    let base : Room :=
      match jsGet s.rooms roomId with
      | some room => room
      | none => { id := roomId, users := [], messages := [], isVideoCall := isVideoCall || false }
    let member : Member := { id := sid, username := username, joinedAt := s.clock }
    let room' : Room := { base with users := jsSet base.users sid member }
    let sr := match jsGet s.socketRooms sid with | some l => l | none => []
    let sr' := if roomId ∈ sr then sr else sr ++ [roomId]
    ({ rooms := jsSet s.rooms roomId room',
       users := jsSet s.users sid { roomId := roomId, username := username },
       socketRooms := jsSet s.socketRooms sid sr',
       clock := s.clock + 1 },
     [ { target := .toRoomExcept roomId sid,
         payload := .userJoined sid username (jsValues room'.users) },
       { target := .toSocket sid,
         payload := .roomJoined roomId (jsValues room'.users) room'.messages room'.isVideoCall } ])
  | .sendMessage sid message =>
    match jsGet s.users sid with
    | none => (s, [])
    | some user =>
      match jsGet s.rooms user.roomId with
      | none => (s, [])
      | some room =>
        let messageData : ChatMessage :=
          { id := s.clock, username := user.username, message := message,
            timestamp := s.clock, userId := sid }
        ({ s with
             rooms := jsSet s.rooms user.roomId
               { room with messages := room.messages ++ [messageData] },
             clock := s.clock + 1 },
         [ { target := .toRoom user.roomId, payload := .newMessage messageData } ])
  | .webrtcOffer sid targetUserId offer =>
    (s, [ { target := .toRoomExcept targetUserId sid, payload := .offerMsg offer sid } ])
  | .webrtcAnswer sid targetUserId answer =>
    (s, [ { target := .toRoomExcept targetUserId sid, payload := .answerMsg answer sid } ])
  | .webrtcIce sid targetUserId candidate =>
    (s, [ { target := .toRoomExcept targetUserId sid, payload := .iceMsg candidate sid } ])
  | .startVideoCall sid =>
    match jsGet s.users sid with
    | none => (s, [])
    | some user =>
      (s, [ { target := .toRoomExcept user.roomId sid,
              payload := .callStarted sid user.username } ])
  | .endVideoCall sid =>
    match jsGet s.users sid with
    | none => (s, [])
    | some user =>
      (s, [ { target := .toRoomExcept user.roomId sid, payload := .callEnded sid } ])
  | .disconnect sid =>
    let r1 : ServerState × List Emit :=
      match jsGet s.users sid with
      | none => (s, [])
      | some user =>
        match jsGet s.rooms user.roomId with
        | none => ({ s with users := jsDelete s.users sid }, [])
        | some room =>
          let users' := jsDelete room.users sid
          if users'.isEmpty then
            ({ s with rooms := jsDelete s.rooms user.roomId,
                      users := jsDelete s.users sid }, [])
          else
            ({ s with rooms := jsSet s.rooms user.roomId { room with users := users' },
                      users := jsDelete s.users sid },
             [ { target := .toRoomExcept user.roomId sid,
                 payload := .userLeft sid user.username (jsValues users') } ])
    ({ r1.1 with socketRooms := jsDelete r1.1.socketRooms sid }, r1.2)

/-- States the server can reach by handling any sequence of events. -/
inductive Reachable : ServerState → Prop
  | init : Reachable initState
  | step (s : ServerState) (e : Ev) : Reachable s → Reachable (stepS s e).1

/-- socket.io rooms a connection has joined via `socket.join`. -/
def socketRoomsOf (s : ServerState) (c : String) : List String :=
  match jsGet s.socketRooms c with
  | some l => l
  | none => []

/-- Whether connection `c` receives an emit: `socket.emit` reaches the one
socket; `socket.to(room)` and `io.to(room)` reach the sockets in that
socket.io room (every socket is automatically in the room named by its own
id), the former excluding the sender. -/
def Receives (s : ServerState) (em : Emit) (c : String) : Prop :=
  match em.target with
  | .toSocket sid => c = sid
  | .toRoomExcept room sender => c ≠ sender ∧ (c = room ∨ room ∈ socketRoomsOf s c)
  | .toRoom room => c = room ∨ room ∈ socketRoomsOf s c

instance (s : ServerState) (em : Emit) (c : String) : Decidable (Receives s em c) :=
  match em with
  | ⟨Target.toSocket sid, _⟩ => inferInstanceAs (Decidable (c = sid))
  | ⟨Target.toRoomExcept room sender, _⟩ =>
      inferInstanceAs (Decidable (c ≠ sender ∧ (c = room ∨ room ∈ socketRoomsOf s c)))
  | ⟨Target.toRoom room, _⟩ =>
      inferInstanceAs (Decidable (c = room ∨ room ∈ socketRoomsOf s c))

/-- State of one `RTCPeerConnection` object as far as the hook drives it:
descriptions set, candidates passed to `addIceCandidate`, whether the local
stream's tracks were attached at construction, and whether `close()` ran. -/
structure PC where
  localDesc : Option String
  remoteDesc : Option String
  candidates : List String
  tracksAttached : Bool
  closed : Bool
deriving Repr, DecidableEq

/-- State of the `useWebRTC` hook: `peersRef` (userId → peer-connection id),
the heap of `RTCPeerConnection` objects keyed by an allocation id,
`remoteStreams`, the local stream and the `isCallActive` flag; `nextId`
supplies fresh allocation ids. -/
structure ClientState where
  isCallActive : Bool
  localStream : Option Nat
  peers : List (String × Nat)
  pcs : List (Nat × PC)
  remoteStreams : List (String × Nat)
  nextId : Nat
deriving Repr, DecidableEq

/-- Messages the hook emits on the socket. -/
inductive ClientOut where
  | iceOut (targetUserId candidate : String)
  | offerOut (targetUserId offer : String)
  | answerOut (targetUserId answer : String)
  | startOut
  | endOut
deriving Repr, DecidableEq

/-- A client before any call: empty peer map, no media. -/
def initClient : ClientState :=
  { isCallActive := false, localStream := none, peers := [], pcs := [],
    remoteStreams := [], nextId := 0 }

/-- `createPeerConnection` (hook): allocate a fresh `RTCPeerConnection`,
attaching the local stream's tracks when a local stream exists; returns the
new state and the allocation id. -/
def createPeerConnection (cs : ClientState) : ClientState × Nat :=
  let pc : PC := { localDesc := none, remoteDesc := none, candidates := [],
                   tracksAttached := cs.localStream.isSome, closed := false }
  ({ cs with pcs := jsSet cs.pcs cs.nextId pc, nextId := cs.nextId + 1 }, cs.nextId)

/-- The SDP answer `createAnswer` produces for an offer (opaque to the
protocol; any injective stand-in works). -/
def mkAnswer (offer : String) : String := "answer-" ++ offer

/-- The SDP offer `createOffer` produces (opaque to the protocol; indexed by
the fresh connection's id). -/
def mkOffer (n : Nat) : String := "offer-" ++ toString n

/-- Mutate the `RTCPeerConnection` object with allocation id `pcid`. -/
def updatePC (cs : ClientState) (pcid : Nat) (f : PC → PC) : ClientState :=
  { cs with pcs := jsUpdate cs.pcs pcid f }

/-- `handleOffer`: unconditionally construct a fresh connection, store it in
`peersRef` under the sender (overwriting any prior entry), set the remote
description from the offer, create and set the answer, send the answer back. -/
def handleOffer (cs : ClientState) (offer fromUserId : String) : ClientState × List ClientOut :=
  let r := createPeerConnection cs
  let cs2 := { r.1 with peers := jsSet r.1.peers fromUserId r.2 }
  let cs3 := updatePC cs2 r.2 (fun pc => { pc with remoteDesc := some offer })
  let cs4 := updatePC cs3 r.2 (fun pc => { pc with localDesc := some (mkAnswer offer) })
  (cs4, [ .answerOut fromUserId (mkAnswer offer) ])

/-- `handleAnswer`: if a peer entry exists for the sender, set the remote
description on its connection; otherwise do nothing. -/
def handleAnswer (cs : ClientState) (answer fromUserId : String) : ClientState × List ClientOut :=
  match jsGet cs.peers fromUserId with
  | none => (cs, [])
  | some pcid => (updatePC cs pcid (fun pc => { pc with remoteDesc := some answer }), [])

/-- `handleIceCandidate`: if a peer entry exists for the sender, call
`addIceCandidate` on its connection immediately; otherwise do nothing — the
hook keeps no queue of early candidates. -/
def handleIceCandidate (cs : ClientState) (candidate fromUserId : String) :
    ClientState × List ClientOut :=
  match jsGet cs.peers fromUserId with
  | none => (cs, [])
  | some pcid =>
      (updatePC cs pcid (fun pc => { pc with candidates := pc.candidates ++ [candidate] }), [])

/-- `initiateCall`: construct a fresh connection toward the target, store it
in `peersRef`, create and set the offer, send the offer. -/
def initiateCall (cs : ClientState) (targetUserId : String) : ClientState × List ClientOut :=
  let r := createPeerConnection cs
  let cs2 := { r.1 with peers := jsSet r.1.peers targetUserId r.2 }
  let cs3 := updatePC cs2 r.2 (fun pc => { pc with localDesc := some (mkOffer r.2) })
  (cs3, [ .offerOut targetUserId (mkOffer r.2) ])

/-- `startCall` (success path of `getUserMedia`): acquire the local stream,
set `isCallActive`, and emit `start-video-call`. It touches no peer entries
and sends no offers. -/
def startCall (cs : ClientState) : ClientState × List ClientOut :=
  ({ cs with localStream := some cs.nextId, isCallActive := true, nextId := cs.nextId + 1 },
   [ .startOut ])

/-- `endCall`: release the local stream, close every connection referenced by
`peersRef`, clear the peer and remote-stream maps, emit `end-video-call`. -/
def endCall (cs : ClientState) : ClientState × List ClientOut :=
  let refd := jsValues cs.peers
  ({ cs with localStream := none,
             pcs := cs.pcs.map (fun p => if p.1 ∈ refd then (p.1, { p.2 with closed := true }) else p),
             peers := [], remoteStreams := [], isCallActive := false },
   [ .endOut ])

/-- `video-call-started` handler: initiate a call toward the initiator only
when a call is locally active and the initiator is not this client. -/
def onVideoCallStarted (cs : ClientState) (selfId initiatorId : String) :
    ClientState × List ClientOut :=
  if cs.isCallActive ∧ initiatorId ≠ selfId then initiateCall cs initiatorId else (cs, [])

/-- `user-joined` handler of the hook: initiate a call toward the new user
when a call is locally active. -/
def onUserJoined (cs : ClientState) (userId : String) : ClientState × List ClientOut :=
  if cs.isCallActive then initiateCall cs userId else (cs, [])

/-- `user-left` handler of the hook: if a peer entry exists for the departed
user, close its connection, drop the peer entry and the remote stream. -/
def onUserLeft (cs : ClientState) (userId : String) : ClientState × List ClientOut :=
  match jsGet cs.peers userId with
  | none => (cs, [])
  | some pcid =>
    let cs1 := updatePC cs pcid (fun pc => { pc with closed := true })
    ({ cs1 with peers := jsDelete cs1.peers userId,
                remoteStreams := jsDelete cs1.remoteStreams userId }, [])

/-- The ChatMessage the send-message handler constructs in state `s`. -/
def msgOf (s : ServerState) (user : UserInfo) (sid msg : String) : ChatMessage :=
  { id := s.clock, username := user.username, message := msg,
    timestamp := s.clock, userId := sid }

/-- Whether connection `sid` is in the membership map of room `r`. -/
def memberOf (s : ServerState) (r sid : String) : Bool :=
  match jsGet s.rooms r with
  | some room => (jsGet room.users sid).isSome
  | none => false

/-- Sender tag of a directed signaling payload. -/
def payloadSender : Payload → Option String
  | .offerMsg _ f => some f
  | .answerMsg _ f => some f
  | .iceMsg _ f => some f
  | _ => none

/-- Member record created for connection A joining at clock 0. -/
def memA : Member := { id := "A", username := "alice", joinedAt := 0 }

/-- Member record created for connection B joining at clock 1. -/
def memB : Member := { id := "B", username := "bob", joinedAt := 1 }

/-- Room "r" after A joined. -/
def roomRA : Room := { id := "r", users := [("A", memA)], messages := [], isVideoCall := false }

/-- Room "r" after A and B joined. -/
def roomR : Room :=
  { id := "r", users := [("A", memA), ("B", memB)], messages := [], isVideoCall := false }

/-- The `users`-map entry of connection A. -/
def userA : UserInfo := { roomId := "r", username := "alice" }

/-- Server state after A joins room "r". -/
def oneMemberState : ServerState := (stepS initState (Ev.joinRoom "A" "r" "alice" false)).1

/-- Server state after A and then B join room "r". -/
def twoMemberState : ServerState :=
  (stepS oneMemberState (Ev.joinRoom "B" "r" "bob" false)).1

/-- Server state after connection A joins room "r1" and then room "r2". -/
def doubleJoinState : ServerState :=
  (stepS (stepS initState (Ev.joinRoom "A" "r1" "alice" false)).1
    (Ev.joinRoom "A" "r2" "alice" false)).1

/-- Server state in which connection C has joined a room whose identifier is
the string "B" — the connection identifier of another client. -/
def collisionState : ServerState := (stepS initState (Ev.joinRoom "C" "B" "carol" false)).1

/-- The relayed emit for an offer from A targeted at B. -/
def collisionEmit : Emit :=
  { target := .toRoomExcept "B" "A", payload := .offerMsg "sdp0" "A" }

/-- A client in a call that holds no PeerLink yet. -/
def lonelyClient : ClientState :=
  { isCallActive := true, localStream := some 0, peers := [], pcs := [],
    remoteStreams := [], nextId := 1 }

/-- A connection that sent an offer and still awaits the answer: local
description set, no remote description yet. -/
def halfOpenPC : PC :=
  { localDesc := some "offer-0", remoteDesc := none, candidates := [],
    tracksAttached := true, closed := false }

/-- A client in a call holding one half-open PeerLink to user "U". -/
def halfOpenClient : ClientState :=
  { isCallActive := true, localStream := some 0, peers := [("U", 0)],
    pcs := [(0, halfOpenPC)], remoteStreams := [], nextId := 1 }

/-- A fully negotiated connection: both descriptions set. -/
def connectedPC : PC :=
  { localDesc := some "offer-0", remoteDesc := some "answer-offer-0", candidates := [],
    tracksAttached := true, closed := false }

/-- A client in a call holding one Connected PeerLink to user "A" with an
inbound remote stream. -/
def watcherClient : ClientState :=
  { isCallActive := true, localStream := some 0, peers := [("A", 0)],
    pcs := [(0, connectedPC)], remoteStreams := [("A", 1)], nextId := 1 }


theorem jsGet_set_self {α β : Type} [DecidableEq α] (l : List (α × β)) (k : α) (v : β) :
    jsGet (jsSet l k v) k = some v := by
  induction l with
  | nil => simp [jsSet, jsGet]
  | cons p t ih =>
    obtain ⟨a, b⟩ := p
    by_cases h : a = k
    · simp [jsSet, jsGet, h]
    · simp [jsSet, jsGet, h, ih]

theorem jsGet_set_ne {α β : Type} [DecidableEq α] (l : List (α × β)) (k k' : α) (v : β)
    (h : k' ≠ k) : jsGet (jsSet l k v) k' = jsGet l k' := by
  induction l with
  | nil =>
    have hk : ¬ k = k' := fun hh => h hh.symm
    simp [jsSet, jsGet, hk]
  | cons p t ih =>
    obtain ⟨a, b⟩ := p
    by_cases ha : a = k
    · subst ha
      have hk : ¬ a = k' := fun hh => h hh.symm
      simp [jsSet, jsGet, hk]
    · simp only [jsSet, if_neg ha]
      by_cases ha' : a = k'
      · simp [jsGet, ha']
      · simp [jsGet, ha', ih]

theorem jsGet_delete_ne {α β : Type} [DecidableEq α] (l : List (α × β)) (k k' : α)
    (h : k' ≠ k) : jsGet (jsDelete l k) k' = jsGet l k' := by
  induction l with
  | nil => simp [jsDelete]
  | cons p t ih =>
    obtain ⟨a, b⟩ := p
    by_cases ha : a = k
    · subst ha
      have hk : ¬ a = k' := fun hh => h hh.symm
      simp [jsDelete, jsGet, hk]
    · simp only [jsDelete, if_neg ha]
      by_cases ha' : a = k'
      · simp [jsGet, ha']
      · simp [jsGet, ha', ih]

theorem jsGet_eq_none_of_not_mem {α β : Type} [DecidableEq α] (l : List (α × β)) (k : α)
    (h : k ∉ l.map Prod.fst) : jsGet l k = none := by
  induction l with
  | nil => simp [jsGet]
  | cons p t ih =>
    obtain ⟨a, b⟩ := p
    simp only [List.map_cons, List.mem_cons, not_or] at h
    have hk : ¬ a = k := fun hh => h.1 hh.symm
    simp [jsGet, hk, ih h.2]

theorem mem_keys_of_jsGet_some {α β : Type} [DecidableEq α] (l : List (α × β)) (k : α)
    (v : β) (h : jsGet l k = some v) : k ∈ l.map Prod.fst := by
  induction l with
  | nil => simp [jsGet] at h
  | cons p t ih =>
    obtain ⟨a, b⟩ := p
    by_cases ha : a = k
    · simp [ha]
    · simp only [jsGet, if_neg ha] at h
      simp [ih h]

theorem jsGet_delete_self {α β : Type} [DecidableEq α] (l : List (α × β)) (k : α)
    (h : (l.map Prod.fst).Nodup) : jsGet (jsDelete l k) k = none := by
  induction l with
  | nil => simp [jsDelete, jsGet]
  | cons p t ih =>
    obtain ⟨a, b⟩ := p
    simp only [List.map_cons, List.nodup_cons] at h
    by_cases ha : a = k
    · subst ha
      simpa [jsDelete] using jsGet_eq_none_of_not_mem t a h.1
    · simp [jsDelete, ha, jsGet, ih h.2]

theorem jsSet_ne_nil {α β : Type} [DecidableEq α] (l : List (α × β)) (k : α) (v : β) :
    jsSet l k v ≠ [] := by
  cases l with
  | nil => simp [jsSet]
  | cons p t =>
    obtain ⟨a, b⟩ := p
    by_cases h : a = k <;> simp [jsSet, h]

theorem keys_set {α β : Type} [DecidableEq α] (l : List (α × β)) (k : α) (v : β) :
    (jsSet l k v).map Prod.fst = if k ∈ l.map Prod.fst then l.map Prod.fst
                                 else l.map Prod.fst ++ [k] := by
  induction l with
  | nil => simp [jsSet]
  | cons p t ih =>
    obtain ⟨a, b⟩ := p
    by_cases h : a = k
    · subst h
      simp [jsSet]
    · have hk : ¬ k = a := fun hh => h hh.symm
      simp only [jsSet, if_neg h, List.map_cons, ih]
      by_cases hm : k ∈ t.map Prod.fst
      · simp [hm, hk]
      · simp [hm, hk]

theorem keys_nodup_set {α β : Type} [DecidableEq α] (l : List (α × β)) (k : α) (v : β)
    (h : (l.map Prod.fst).Nodup) : ((jsSet l k v).map Prod.fst).Nodup := by
  rw [keys_set]
  by_cases hm : k ∈ l.map Prod.fst
  · simpa [hm] using h
  · simp only [hm, if_false]
    simpa using List.Nodup.append h (List.nodup_singleton k) (by simpa using hm)

theorem keys_delete_sublist {α β : Type} [DecidableEq α] (l : List (α × β)) (k : α) :
    ((jsDelete l k).map Prod.fst).Sublist (l.map Prod.fst) := by
  induction l with
  | nil => simp [jsDelete]
  | cons p t ih =>
    obtain ⟨a, b⟩ := p
    by_cases h : a = k
    · simp only [jsDelete, if_pos h, List.map_cons]
      exact (List.sublist_cons_self a (t.map Prod.fst)).trans (List.Sublist.refl _) |>.trans
        (List.Sublist.refl _)
    · simp only [jsDelete, if_neg h, List.map_cons]
      exact ih.cons₂ a

theorem keys_nodup_delete {α β : Type} [DecidableEq α] (l : List (α × β)) (k : α)
    (h : (l.map Prod.fst).Nodup) : ((jsDelete l k).map Prod.fst).Nodup :=
  (keys_delete_sublist l k).nodup h

theorem jsGet_update_self {α β : Type} [DecidableEq α] (l : List (α × β)) (k : α)
    (f : β → β) : jsGet (jsUpdate l k f) k = (jsGet l k).map f := by
  induction l with
  | nil => simp [jsUpdate, jsGet]
  | cons p t ih =>
    obtain ⟨a, b⟩ := p
    by_cases h : a = k
    · simp [jsUpdate, jsGet, h]
    · simp [jsUpdate, jsGet, h, ih]

theorem jsGet_update_ne {α β : Type} [DecidableEq α] (l : List (α × β)) (k k' : α)
    (f : β → β) (h : k' ≠ k) : jsGet (jsUpdate l k f) k' = jsGet l k' := by
  induction l with
  | nil => simp [jsUpdate]
  | cons p t ih =>
    obtain ⟨a, b⟩ := p
    by_cases ha : a = k
    · subst ha
      have hk : ¬ a = k' := fun hh => h hh.symm
      simp [jsUpdate, jsGet, hk]
    · simp only [jsUpdate, if_neg ha]
      by_cases ha' : a = k'
      · simp [jsGet, ha']
      · simp [jsGet, ha', ih]

theorem jsDelete_ne_nil_of_get_other {α β : Type} [DecidableEq α] (l : List (α × β))
    (k k' : α) (v : β) (hne : k' ≠ k) (h : jsGet l k' = some v) : jsDelete l k ≠ [] := by
  intro hnil
  have := jsGet_delete_ne l k k' hne
  rw [hnil] at this
  simp [jsGet] at this
  rw [h] at this
  exact Option.noConfusion this

/-- Well-formedness of the server state: the maps have distinct keys, every
stored room has a non-empty membership with distinct keys, and every entry of
the `users` index points at an existing room that contains that connection. -/
def RegistryInv (s : ServerState) : Prop :=
  (s.rooms.map Prod.fst).Nodup ∧
  (s.users.map Prod.fst).Nodup ∧
  (∀ r room, jsGet s.rooms r = some room → (room.users.map Prod.fst).Nodup) ∧
  (∀ r room, jsGet s.rooms r = some room → room.users ≠ []) ∧
  (∀ sid u, jsGet s.users sid = some u →
    ∃ room, jsGet s.rooms u.roomId = some room ∧ (jsGet room.users sid).isSome)

theorem inv_init : RegistryInv initState := by
  refine ⟨by simp [initState], by simp [initState], ?_, ?_, ?_⟩ <;>
    intro a b hab <;> simp [initState, jsGet] at hab

theorem nil_of_isEmpty_true {γ : Type} (l : List γ) (h : l.isEmpty = true) : l = [] := by
  cases l <;> simp_all

theorem ne_nil_of_isEmpty_false {γ : Type} (l : List γ) (h : l.isEmpty = false) : l ≠ [] := by
  cases l <;> simp_all

theorem stepS_sendMessage_none (s : ServerState) (sid msg : String)
    (hu : jsGet s.users sid = none) : stepS s (Ev.sendMessage sid msg) = (s, []) := by
  simp [stepS, hu]

theorem stepS_sendMessage_some (s : ServerState) (sid msg : String) (user : UserInfo)
    (room : Room) (hu : jsGet s.users sid = some user)
    (hr : jsGet s.rooms user.roomId = some room) :
    stepS s (Ev.sendMessage sid msg) =
      ({ s with
           rooms := jsSet s.rooms user.roomId
             { room with messages := room.messages ++
                 [{ id := s.clock, username := user.username, message := msg,
                    timestamp := s.clock, userId := sid }] },
           clock := s.clock + 1 },
       [ { target := .toRoom user.roomId,
           payload := .newMessage { id := s.clock, username := user.username, message := msg,
                                    timestamp := s.clock, userId := sid } } ]) := by
  simp [stepS, hu, hr]

theorem stepS_disconnect_none (s : ServerState) (sid : String)
    (hu : jsGet s.users sid = none) :
    stepS s (Ev.disconnect sid) = ({ s with socketRooms := jsDelete s.socketRooms sid }, []) := by
  simp [stepS, hu]

theorem stepS_disconnect_last (s : ServerState) (sid : String) (user : UserInfo) (room : Room)
    (hu : jsGet s.users sid = some user) (hroom : jsGet s.rooms user.roomId = some room)
    (hemp : (jsDelete room.users sid).isEmpty = true) :
    stepS s (Ev.disconnect sid) =
      ({ s with rooms := jsDelete s.rooms user.roomId,
                users := jsDelete s.users sid,
                socketRooms := jsDelete s.socketRooms sid }, []) := by
  simp [stepS, hu, hroom, hemp]

theorem stepS_disconnect_kept (s : ServerState) (sid : String) (user : UserInfo) (room : Room)
    (hu : jsGet s.users sid = some user) (hroom : jsGet s.rooms user.roomId = some room)
    (hemp : (jsDelete room.users sid).isEmpty = false) :
    stepS s (Ev.disconnect sid) =
      ({ s with rooms := jsSet s.rooms user.roomId { room with users := jsDelete room.users sid },
                users := jsDelete s.users sid,
                socketRooms := jsDelete s.socketRooms sid },
       [ { target := .toRoomExcept user.roomId sid,
           payload := .userLeft sid user.username (jsValues (jsDelete room.users sid)) } ]) := by
  simp [stepS, hu, hroom, hemp]

theorem inv_step (s : ServerState) (e : Ev) (h : RegistryInv s) : RegistryInv (stepS s e).1 := by
  obtain ⟨h1, h2, h3, h4, h5⟩ := h
  cases e with
  | joinRoom sid roomId username ivc =>
    simp only [stepS]
    refine ⟨keys_nodup_set _ _ _ h1, keys_nodup_set _ _ _ h2, ?_, ?_, ?_⟩
    · intro r room2 hr
      by_cases hrr : r = roomId
      · subst hrr
        rw [jsGet_set_self] at hr
        cases hr
        rcases hb : jsGet s.rooms r with _ | room0
        · simp only [hb]
          exact keys_nodup_set _ _ _ (by simp)
        · simp only [hb]
          exact keys_nodup_set _ _ _ (h3 r room0 hb)
      · rw [jsGet_set_ne _ _ _ _ hrr] at hr
        exact h3 r room2 hr
    · intro r room2 hr
      by_cases hrr : r = roomId
      · subst hrr
        rw [jsGet_set_self] at hr
        cases hr
        exact jsSet_ne_nil _ _ _
      · rw [jsGet_set_ne _ _ _ _ hrr] at hr
        exact h4 r room2 hr
    · intro x u hx
      by_cases hxs : x = sid
      · subst hxs
        rw [jsGet_set_self] at hx
        cases hx
        refine ⟨_, jsGet_set_self _ _ _, ?_⟩
        simp [jsGet_set_self]
      · rw [jsGet_set_ne _ _ _ _ hxs] at hx
        obtain ⟨room0, hroom0, hmem⟩ := h5 x u hx
        by_cases hur : u.roomId = roomId
        · rw [hur] at hroom0 ⊢
          refine ⟨_, jsGet_set_self _ _ _, ?_⟩
          simp only [hroom0]
          rw [jsGet_set_ne _ _ _ _ hxs]
          exact hmem
        · refine ⟨room0, ?_, ?_⟩
          · rw [jsGet_set_ne _ _ _ _ hur]
            exact hroom0
          · simpa [hroom0] using hmem
  | sendMessage sid msg =>
    rcases hu : jsGet s.users sid with _ | user
    · rw [stepS_sendMessage_none s sid msg hu]
      exact ⟨h1, h2, h3, h4, h5⟩
    · rcases hr : jsGet s.rooms user.roomId with _ | room
      · have : stepS s (Ev.sendMessage sid msg) = (s, []) := by simp [stepS, hu, hr]
        rw [this]
        exact ⟨h1, h2, h3, h4, h5⟩
      · rw [stepS_sendMessage_some s sid msg user room hu hr]
        refine ⟨keys_nodup_set _ _ _ h1, h2, ?_, ?_, ?_⟩
        · intro r room2 hr2
          by_cases hrr : r = user.roomId
          · rw [hrr, jsGet_set_self] at hr2
            cases hr2
            exact h3 _ room hr
          · rw [jsGet_set_ne _ _ _ _ hrr] at hr2
            exact h3 r room2 hr2
        · intro r room2 hr2
          by_cases hrr : r = user.roomId
          · rw [hrr, jsGet_set_self] at hr2
            cases hr2
            simpa using h4 _ room hr
          · rw [jsGet_set_ne _ _ _ _ hrr] at hr2
            exact h4 r room2 hr2
        · intro x u hx
          obtain ⟨room0, hroom0, hmem⟩ := h5 x u hx
          by_cases hur : u.roomId = user.roomId
          · rw [hur] at hroom0 ⊢
            rw [hroom0] at hr
            cases hr
            refine ⟨_, jsGet_set_self _ _ _, ?_⟩
            simpa using hmem
          · refine ⟨room0, ?_, hmem⟩
            rw [jsGet_set_ne _ _ _ _ hur]
            exact hroom0
  | webrtcOffer sid t o => exact ⟨h1, h2, h3, h4, h5⟩
  | webrtcAnswer sid t a => exact ⟨h1, h2, h3, h4, h5⟩
  | webrtcIce sid t c => exact ⟨h1, h2, h3, h4, h5⟩
  | startVideoCall sid =>
    rcases hu : jsGet s.users sid with _ | user
    · have : (stepS s (Ev.startVideoCall sid)).1 = s := by simp [stepS, hu]
      rw [this]
      exact ⟨h1, h2, h3, h4, h5⟩
    · have : (stepS s (Ev.startVideoCall sid)).1 = s := by simp [stepS, hu]
      rw [this]
      exact ⟨h1, h2, h3, h4, h5⟩
  | endVideoCall sid =>
    rcases hu : jsGet s.users sid with _ | user
    · have : (stepS s (Ev.endVideoCall sid)).1 = s := by simp [stepS, hu]
      rw [this]
      exact ⟨h1, h2, h3, h4, h5⟩
    · have : (stepS s (Ev.endVideoCall sid)).1 = s := by simp [stepS, hu]
      rw [this]
      exact ⟨h1, h2, h3, h4, h5⟩
  | disconnect sid =>
    rcases hu : jsGet s.users sid with _ | user
    · rw [stepS_disconnect_none s sid hu]
      exact ⟨h1, h2, h3, h4, h5⟩
    · obtain ⟨room, hroom, hmemself⟩ := h5 sid user hu
      rcases hemp : (jsDelete room.users sid).isEmpty with _ | _
      · rw [stepS_disconnect_kept s sid user room hu hroom hemp]
        refine ⟨keys_nodup_set _ _ _ h1, keys_nodup_delete _ _ h2, ?_, ?_, ?_⟩
        · intro r room2 hr2
          by_cases hrr : r = user.roomId
          · rw [hrr, jsGet_set_self] at hr2
            cases hr2
            exact keys_nodup_delete _ _ (h3 _ room hroom)
          · rw [jsGet_set_ne _ _ _ _ hrr] at hr2
            exact h3 r room2 hr2
        · intro r room2 hr2
          by_cases hrr : r = user.roomId
          · rw [hrr, jsGet_set_self] at hr2
            cases hr2
            exact ne_nil_of_isEmpty_false _ hemp
          · rw [jsGet_set_ne _ _ _ _ hrr] at hr2
            exact h4 r room2 hr2
        · intro x u hx
          by_cases hxs : x = sid
          · rw [hxs, jsGet_delete_self _ _ h2] at hx
            exact Option.noConfusion hx
          · rw [jsGet_delete_ne _ _ _ hxs] at hx
            obtain ⟨room0, hroom0, hmem⟩ := h5 x u hx
            by_cases hur : u.roomId = user.roomId
            · rw [hur] at hroom0 ⊢
              rw [hroom0] at hroom
              cases hroom
              refine ⟨_, jsGet_set_self _ _ _, ?_⟩
              simp only
              rw [jsGet_delete_ne _ _ _ hxs]
              exact hmem
            · refine ⟨room0, ?_, hmem⟩
              rw [jsGet_set_ne _ _ _ _ hur]
              exact hroom0
      · rw [stepS_disconnect_last s sid user room hu hroom hemp]
        refine ⟨keys_nodup_delete _ _ h1, keys_nodup_delete _ _ h2, ?_, ?_, ?_⟩
        · intro r room2 hr2
          by_cases hrr : r = user.roomId
          · rw [hrr, jsGet_delete_self _ _ h1] at hr2
            exact Option.noConfusion hr2
          · rw [jsGet_delete_ne _ _ _ hrr] at hr2
            exact h3 r room2 hr2
        · intro r room2 hr2
          by_cases hrr : r = user.roomId
          · rw [hrr, jsGet_delete_self _ _ h1] at hr2
            exact Option.noConfusion hr2
          · rw [jsGet_delete_ne _ _ _ hrr] at hr2
            exact h4 r room2 hr2
        · intro x u hx
          by_cases hxs : x = sid
          · rw [hxs, jsGet_delete_self _ _ h2] at hx
            exact Option.noConfusion hx
          · rw [jsGet_delete_ne _ _ _ hxs] at hx
            obtain ⟨room0, hroom0, hmem⟩ := h5 x u hx
            by_cases hur : u.roomId = user.roomId
            · exfalso
              rw [hur, hroom] at hroom0
              cases hroom0
              rcases hv : jsGet room.users x with _ | m
              · rw [hv] at hmem
                simp at hmem
              · have hne : jsDelete room.users sid ≠ [] :=
                  jsDelete_ne_nil_of_get_other _ _ _ _ hxs hv
                exact hne (nil_of_isEmpty_true _ hemp)
            · refine ⟨room0, ?_, hmem⟩
              rw [jsGet_delete_ne _ _ _ hur]
              exact hroom0

theorem reachable_inv (s : ServerState) (h : Reachable s) : RegistryInv s := by
  induction h with
  | init => exact inv_init
  | step s e _ ih => exact inv_step s e ih

/-- Trace restriction forced by the double-join behaviour: a connection only
issues `join-room` when it is not already a member of a different room. -/
def SafeEv (s : ServerState) (e : Ev) : Prop :=
  match e with
  | .joinRoom sid roomId _ _ => ∀ u, jsGet s.users sid = some u → u.roomId = roomId
  | _ => True

/-- States reachable by event sequences satisfying `SafeEv` at each step. -/
inductive ReachableSafe : ServerState → Prop
  | init : ReachableSafe initState
  | step (s : ServerState) (e : Ev) : ReachableSafe s → SafeEv s e → ReachableSafe (stepS s e).1

theorem reachableSafe_reachable (s : ServerState) (h : ReachableSafe s) : Reachable s := by
  induction h with
  | init => exact Reachable.init
  | step s e _ _ ih => exact Reachable.step s e ih

/-- Every membership entry of every room is backed by the `users` index
pointing at that very room. -/
def MemberConsistent (s : ServerState) : Prop :=
  ∀ r room sid m, jsGet s.rooms r = some room → jsGet room.users sid = some m →
    ∃ u, jsGet s.users sid = some u ∧ u.roomId = r

theorem mc_step (s : ServerState) (e : Ev) (hinv : RegistryInv s)
    (hmc : MemberConsistent s) (hsafe : SafeEv s e) : MemberConsistent (stepS s e).1 := by
  obtain ⟨h1, h2, h3, h4, h5⟩ := hinv
  cases e with
  | joinRoom sid roomId username ivc =>
    have g : ∀ u, jsGet s.users sid = some u → u.roomId = roomId := hsafe
    simp only [stepS]
    intro r room2 x m hr hm
    by_cases hrr : r = roomId
    · subst hrr
      rw [jsGet_set_self] at hr
      cases hr
      by_cases hxs : x = sid
      · subst hxs
        refine ⟨{ roomId := r, username := username }, jsGet_set_self _ _ _, rfl⟩
      · rw [jsGet_set_ne _ _ _ _ hxs] at hm
        rcases hb : jsGet s.rooms r with _ | room0
        · rw [hb] at hm
          simp [jsGet] at hm
        · rw [hb] at hm
          obtain ⟨u0, hu0, hur0⟩ := hmc r room0 x m hb hm
          exact ⟨u0, by rw [jsGet_set_ne _ _ _ _ hxs]; exact hu0, hur0⟩
    · rw [jsGet_set_ne _ _ _ _ hrr] at hr
      obtain ⟨u0, hu0, hur0⟩ := hmc r room2 x m hr hm
      by_cases hxs : x = sid
      · exfalso
        rw [hxs] at hu0
        exact hrr (hur0 ▸ (g u0 hu0) ▸ rfl)
      · exact ⟨u0, by rw [jsGet_set_ne _ _ _ _ hxs]; exact hu0, hur0⟩
  | sendMessage sid msg =>
    rcases hu : jsGet s.users sid with _ | user
    · rw [stepS_sendMessage_none s sid msg hu]
      exact hmc
    · rcases hr : jsGet s.rooms user.roomId with _ | room
      · have hid : stepS s (Ev.sendMessage sid msg) = (s, []) := by simp [stepS, hu, hr]
        rw [hid]
        exact hmc
      · rw [stepS_sendMessage_some s sid msg user room hu hr]
        intro r room2 x m hr2 hm
        by_cases hrr : r = user.roomId
        · rw [hrr, jsGet_set_self] at hr2
          cases hr2
          obtain ⟨u0, hu0, hur0⟩ := hmc user.roomId room x m hr hm
          exact ⟨u0, hu0, hur0.trans hrr.symm⟩
        · rw [jsGet_set_ne _ _ _ _ hrr] at hr2
          exact hmc r room2 x m hr2 hm
  | webrtcOffer sid t o => exact hmc
  | webrtcAnswer sid t a => exact hmc
  | webrtcIce sid t c => exact hmc
  | startVideoCall sid =>
    rcases hu : jsGet s.users sid with _ | user <;>
      · have hid : (stepS s (Ev.startVideoCall sid)).1 = s := by simp [stepS, hu]
        rw [hid]
        exact hmc
  | endVideoCall sid =>
    rcases hu : jsGet s.users sid with _ | user <;>
      · have hid : (stepS s (Ev.endVideoCall sid)).1 = s := by simp [stepS, hu]
        rw [hid]
        exact hmc
  | disconnect sid =>
    rcases hu : jsGet s.users sid with _ | user
    · rw [stepS_disconnect_none s sid hu]
      exact hmc
    · obtain ⟨room, hroom, _⟩ := h5 sid user hu
      rcases hemp : (jsDelete room.users sid).isEmpty with _ | _
      · rw [stepS_disconnect_kept s sid user room hu hroom hemp]
        intro r room2 x m hr2 hm
        by_cases hrr : r = user.roomId
        · rw [hrr, jsGet_set_self] at hr2
          cases hr2
          by_cases hxs : x = sid
          · rw [hxs, jsGet_delete_self _ _ (h3 _ room hroom)] at hm
            exact Option.noConfusion hm
          · rw [jsGet_delete_ne _ _ _ hxs] at hm
            obtain ⟨u0, hu0, hur0⟩ := hmc user.roomId room x m hroom hm
            refine ⟨u0, ?_, hur0.trans hrr.symm⟩
            rw [jsGet_delete_ne _ _ _ hxs]
            exact hu0
        · rw [jsGet_set_ne _ _ _ _ hrr] at hr2
          obtain ⟨u0, hu0, hur0⟩ := hmc r room2 x m hr2 hm
          by_cases hxs : x = sid
          · exfalso
            rw [hxs, hu] at hu0
            cases hu0
            exact hrr hur0.symm
          · refine ⟨u0, ?_, hur0⟩
            rw [jsGet_delete_ne _ _ _ hxs]
            exact hu0
      · rw [stepS_disconnect_last s sid user room hu hroom hemp]
        intro r room2 x m hr2 hm
        by_cases hrr : r = user.roomId
        · rw [hrr, jsGet_delete_self _ _ h1] at hr2
          exact Option.noConfusion hr2
        · rw [jsGet_delete_ne _ _ _ hrr] at hr2
          obtain ⟨u0, hu0, hur0⟩ := hmc r room2 x m hr2 hm
          by_cases hxs : x = sid
          · exfalso
            rw [hxs, hu] at hu0
            cases hu0
            exact hrr hur0.symm
          · refine ⟨u0, ?_, hur0⟩
            rw [jsGet_delete_ne _ _ _ hxs]
            exact hu0

theorem reachableSafe_mc (s : ServerState) (h : ReachableSafe s) : MemberConsistent s := by
  induction h with
  | init =>
    intro r room sid m hr _
    simp [initState, jsGet] at hr
  | step s e hs hsafe ih =>
    exact mc_step s e (reachable_inv s (reachableSafe_reachable s hs)) ih hsafe

theorem mem_of_jsGet_some {α β : Type} [DecidableEq α] (l : List (α × β)) (k : α) (v : β)
    (h : jsGet l k = some v) : (k, v) ∈ l := by
  induction l with
  | nil => simp [jsGet] at h
  | cons p t ih =>
    obtain ⟨a, b⟩ := p
    by_cases ha : a = k
    · subst ha
      simp only [jsGet, if_pos rfl] at h
      cases h
      exact List.mem_cons_self _ _
    · simp only [jsGet, if_neg ha] at h
      exact List.mem_cons_of_mem _ (ih h)

/-- C1: the spec requires an ICE candidate that arrives before the remote
description exists to be queued and replayed; the hook's
`handleIceCandidate` instead silently discards a candidate whose sender has
no PeerLink yet (the state is completely unchanged, so the candidate is
retained nowhere), and when a link does exist it calls `addIceCandidate`
immediately even though no remote description is set — no queue exists at
all.  This theorem evaluates the handler on both failing situations. -/
theorem ice_candidate_dropped_without_link :
    handleIceCandidate lonelyClient "cand1" "U" = (lonelyClient, []) ∧
    handleIceCandidate halfOpenClient "cand1" "U" =
      ({ halfOpenClient with
           pcs := [(0, { halfOpenPC with candidates := ["cand1"] })] }, []) := by
  exact ⟨rfl, rfl⟩

/-- C2: contrary to the claim, the call-start action constructs no PeerLink
and sends no offer at all: `startCall` only acquires media, sets the
active flag and emits `start-video-call`; the server relays
`video-call-started` to the other room members; and a remote member whose
own call is not active ignores it, so with one idle member zero links are
created rather than N. -/
theorem start_call_creates_no_links :
    (startCall initClient).2 = [ClientOut.startOut] ∧
    (startCall initClient).1.peers = [] ∧
    (startCall initClient).1.pcs = [] ∧
    (stepS twoMemberState (Ev.startVideoCall "A")).2 =
      [ { target := Target.toRoomExcept "r" "A",
          payload := Payload.callStarted "A" "alice" } ] ∧
    onVideoCallStarted initClient "B" "A" = (initClient, []) := by
  refine ⟨rfl, rfl, rfl, by decide, by decide⟩

/-- C3 counterexample: after `join-room` to "r1" and then to "r2", connection
A is still a member of "r1" — the join handler never removes the connection
from its previous room, so a reachable state has A in two rooms at once. -/
theorem double_join_two_rooms :
    Reachable doubleJoinState ∧
    memberOf doubleJoinState "r1" "A" = true ∧
    memberOf doubleJoinState "r2" "A" = true ∧
    ("r1" : String) ≠ "r2" :=
  ⟨Reachable.step _ _ (Reachable.step _ _ Reachable.init), by decide, by decide, by decide⟩

/-- C3 (amended): along traces in which a connection only joins a room when
it is not already a member of a different room, each connection identifier
appears in the membership map of at most one room; without that restriction
a second join leaves the connection a member of both rooms. -/
theorem member_in_at_most_one_room_of_safe
    (s : ServerState) (h : ReachableSafe s) (r1 r2 : String) (room1 room2 : Room)
    (sid : String) (m1 m2 : Member)
    (hr1 : jsGet s.rooms r1 = some room1) (hr2 : jsGet s.rooms r2 = some room2)
    (hm1 : jsGet room1.users sid = some m1) (hm2 : jsGet room2.users sid = some m2) :
    r1 = r2 := by
  obtain ⟨u1, hu1, hx1⟩ := reachableSafe_mc s h r1 room1 sid m1 hr1 hm1
  obtain ⟨u2, hu2, hx2⟩ := reachableSafe_mc s h r2 room2 sid m2 hr2 hm2
  rw [hu1] at hu2
  cases hu2
  exact hx1.symm.trans hx2

theorem member_in_at_most_one_room_of_safe_w : ("r" : String) = "r" := by
  have hs1 : SafeEv initState (Ev.joinRoom "A" "r" "alice" false) := by
    intro u hu
    have hn : jsGet initState.users "A" = none := by decide
    rw [hn] at hu
    exact Option.noConfusion hu
  have hs2 : SafeEv oneMemberState (Ev.joinRoom "B" "r" "bob" false) := by
    intro u hu
    have hn : jsGet oneMemberState.users "B" = none := by decide
    rw [hn] at hu
    exact Option.noConfusion hu
  exact member_in_at_most_one_room_of_safe twoMemberState
    (ReachableSafe.step _ _ (ReachableSafe.step _ _ ReachableSafe.init hs1) hs2)
    "r" "r" roomR roomR "A" memA memA (by decide) (by decide) (by decide) (by decide)

/-- C4: in every reachable state every room present in the registry has a
non-empty membership map, and the disconnect that removes the last member of
a room deletes the room in the same step. -/
theorem room_present_iff_members (s : ServerState) (h : Reachable s) :
    (∀ r room, jsGet s.rooms r = some room → room.users ≠ []) ∧
    (∀ sid user room, jsGet s.users sid = some user →
      jsGet s.rooms user.roomId = some room →
      (jsDelete room.users sid).isEmpty = true →
      jsGet (stepS s (Ev.disconnect sid)).1.rooms user.roomId = none) := by
  obtain ⟨h1, h2, h3, h4, h5⟩ := reachable_inv s h
  refine ⟨h4, ?_⟩
  intro sid user room hu hr hemp
  rw [stepS_disconnect_last s sid user room hu hr hemp]
  exact jsGet_delete_self _ _ h1

theorem room_present_iff_members_w :
    roomRA.users ≠ [] ∧
    jsGet (stepS oneMemberState (Ev.disconnect "A")).1.rooms "r" = none := by
  have h := room_present_iff_members oneMemberState (Reachable.step _ _ Reachable.init)
  exact ⟨h.1 "r" roomRA (by decide), h.2 "A" userA roomRA (by decide) (by decide) (by decide)⟩

/-- C5: an abrupt disconnect of a member removes that connection from its
room in the registry and deletes its `users` entry (exactly the leave
behaviour), broadcasts `user-left` with the post-removal member list to the
rest of the room, and a remote client holding a PeerLink to the departed
identifier closes that connection, drops it from its peer map and discards
the associated inbound stream. -/
theorem disconnect_closes_links
    (s : ServerState) (h : Reachable s) (sid : String) (user : UserInfo) (room : Room)
    (hu : jsGet s.users sid = some user)
    (hroom : jsGet s.rooms user.roomId = some room)
    (hrem : (jsDelete room.users sid).isEmpty = false)
    (cs : ClientState) (pcid : Nat) (pc : PC)
    (hp : jsGet cs.peers sid = some pcid)
    (hpc : jsGet cs.pcs pcid = some pc)
    (hndp : (cs.peers.map Prod.fst).Nodup)
    (hnds : (cs.remoteStreams.map Prod.fst).Nodup) :
    jsGet (stepS s (Ev.disconnect sid)).1.rooms user.roomId =
      some { room with users := jsDelete room.users sid } ∧
    jsGet (stepS s (Ev.disconnect sid)).1.users sid = none ∧
    (stepS s (Ev.disconnect sid)).2 =
      [ { target := Target.toRoomExcept user.roomId sid,
          payload := Payload.userLeft sid user.username (jsValues (jsDelete room.users sid)) } ] ∧
    jsGet (onUserLeft cs sid).1.pcs pcid = some { pc with closed := true } ∧
    jsGet (onUserLeft cs sid).1.peers sid = none ∧
    jsGet (onUserLeft cs sid).1.remoteStreams sid = none := by
  obtain ⟨h1, h2, h3, h4, h5⟩ := reachable_inv s h
  have hcl : onUserLeft cs sid =
      ({ cs with pcs := jsUpdate cs.pcs pcid (fun pc => { pc with closed := true }),
                 peers := jsDelete cs.peers sid,
                 remoteStreams := jsDelete cs.remoteStreams sid }, []) := by
    simp [onUserLeft, hp, updatePC]
  rw [stepS_disconnect_kept s sid user room hu hroom hrem, hcl]
  refine ⟨jsGet_set_self _ _ _, jsGet_delete_self _ _ h2, rfl, ?_, ?_, ?_⟩
  · show jsGet (jsUpdate cs.pcs pcid _) pcid = _
    rw [jsGet_update_self, hpc]
    rfl
  · exact jsGet_delete_self _ _ hndp
  · exact jsGet_delete_self _ _ hnds

theorem disconnect_closes_links_w :
    jsGet (stepS twoMemberState (Ev.disconnect "A")).1.rooms "r" =
      some { roomR with users := [("B", memB)] } ∧
    jsGet (stepS twoMemberState (Ev.disconnect "A")).1.users "A" = none ∧
    jsGet (onUserLeft watcherClient "A").1.pcs 0 = some { connectedPC with closed := true } ∧
    jsGet (onUserLeft watcherClient "A").1.peers "A" = none ∧
    jsGet (onUserLeft watcherClient "A").1.remoteStreams "A" = none := by
  have h := disconnect_closes_links twoMemberState
    (Reachable.step _ _ (Reachable.step _ _ Reachable.init)) "A" userA roomR
    (by decide) (by decide) (by decide) watcherClient 0 connectedPC
    (by decide) (by decide) (by decide) (by decide)
  exact ⟨h.1, h.2.1, h.2.2.2.1, h.2.2.2.2.1, h.2.2.2.2.2⟩

/-- C6: the member list carried by the events generated on a join
(`user-joined` to the rest of the room, `room-joined` to the joiner) is the
post-insertion membership of that room — the registry's membership in the
new state, including the joiner — and the list carried by `user-left` on a
disconnect is the post-removal membership, excluding the leaver. -/
theorem events_carry_current_membership :
    (∀ s sid roomId username ivc,
      ∃ room', jsGet (stepS s (Ev.joinRoom sid roomId username ivc)).1.rooms roomId =
          some room' ∧
        jsGet room'.users sid = some { id := sid, username := username, joinedAt := s.clock } ∧
        (stepS s (Ev.joinRoom sid roomId username ivc)).2 =
          [ { target := Target.toRoomExcept roomId sid,
              payload := Payload.userJoined sid username (jsValues room'.users) },
            { target := Target.toSocket sid,
              payload := Payload.roomJoined roomId (jsValues room'.users) room'.messages
                room'.isVideoCall } ]) ∧
    (∀ s sid user room, Reachable s → jsGet s.users sid = some user →
      jsGet s.rooms user.roomId = some room →
      (jsDelete room.users sid).isEmpty = false →
      ∃ room', jsGet (stepS s (Ev.disconnect sid)).1.rooms user.roomId = some room' ∧
        room'.users = jsDelete room.users sid ∧
        jsGet room'.users sid = none ∧
        (stepS s (Ev.disconnect sid)).2 =
          [ { target := Target.toRoomExcept user.roomId sid,
              payload := Payload.userLeft sid user.username (jsValues room'.users) } ]) := by
  constructor
  · intro s sid roomId username ivc
    simp only [stepS]
    exact ⟨_, jsGet_set_self _ _ _, jsGet_set_self _ _ _, rfl⟩
  · intro s sid user room hreach hu hroom hemp
    obtain ⟨h1, h2, h3, h4, h5⟩ := reachable_inv s hreach
    rw [stepS_disconnect_kept s sid user room hu hroom hemp]
    exact ⟨_, jsGet_set_self _ _ _, rfl,
      jsGet_delete_self _ _ (h3 _ room hroom), rfl⟩

theorem events_carry_current_membership_w :
    (∃ room', jsGet oneMemberState.rooms "r" = some room' ∧
      jsGet room'.users "A" = some memA ∧
      (stepS initState (Ev.joinRoom "A" "r" "alice" false)).2 =
        [ { target := Target.toRoomExcept "r" "A",
            payload := Payload.userJoined "A" "alice" (jsValues room'.users) },
          { target := Target.toSocket "A",
            payload := Payload.roomJoined "r" (jsValues room'.users) room'.messages
              room'.isVideoCall } ]) ∧
    (∃ room', jsGet (stepS twoMemberState (Ev.disconnect "A")).1.rooms "r" = some room' ∧
      room'.users = jsDelete roomR.users "A" ∧
      jsGet room'.users "A" = none ∧
      (stepS twoMemberState (Ev.disconnect "A")).2 =
        [ { target := Target.toRoomExcept "r" "A",
            payload := Payload.userLeft "A" "alice" (jsValues room'.users) } ]) := by
  constructor
  · exact (events_carry_current_membership).1 initState "A" "r" "alice" false
  · exact (events_carry_current_membership).2 twoMemberState "A" userA roomR
      (Reachable.step _ _ (Reachable.step _ _ Reachable.init))
      (by decide) (by decide) (by decide)

/-- C7: `join-room` creates the room exactly when the identifier is absent,
taking the video flag from that call; joining an existing room leaves its
video flag and message history unchanged and only inserts — or silently
overwrites — the membership entry for the joining connection (`jsSet`
replaces an existing binding in place rather than failing); no other room is
touched; and the `users` index is (re)pointed at the joined room. -/
theorem join_room_frame (s : ServerState) (sid roomId username : String) (ivc : Bool) :
    jsGet (stepS s (Ev.joinRoom sid roomId username ivc)).1.rooms roomId =
      some (match jsGet s.rooms roomId with
            | some room =>
              { room with
                users := jsSet room.users sid { id := sid, username := username, joinedAt := s.clock } }
            | none =>
              { id := roomId,
                users := [(sid, { id := sid, username := username, joinedAt := s.clock })],
                messages := [], isVideoCall := ivc }) ∧
    (∀ r, r ≠ roomId →
      jsGet (stepS s (Ev.joinRoom sid roomId username ivc)).1.rooms r = jsGet s.rooms r) ∧
    jsGet (stepS s (Ev.joinRoom sid roomId username ivc)).1.users sid =
      some { roomId := roomId, username := username } := by
  simp only [stepS]
  refine ⟨?_, ?_, jsGet_set_self _ _ _⟩
  · rcases hb : jsGet s.rooms roomId with _ | room0
    · simp only [hb, jsGet_set_self, jsSet, Bool.or_false]
    · simp only [hb, jsGet_set_self]
  · intro r hr
    exact jsGet_set_ne _ _ _ _ hr

theorem join_room_frame_w :
    jsGet twoMemberState.rooms "other" = jsGet oneMemberState.rooms "other" ∧
    jsGet twoMemberState.users "B" = some { roomId := "r", username := "bob" } := by
  have h := join_room_frame oneMemberState "B" "r" "bob" false
  exact ⟨h.2.1 "other" (by decide), h.2.2⟩

/-- C8: a send-message from a connection that is not in the `users` index is
a complete no-op — state unchanged, nothing emitted; from a member it
appends exactly the constructed ChatMessage to that room's sequence and
broadcasts it as `new-message` to the whole room. -/
theorem send_message_no_op_or_broadcast (s : ServerState) (h : Reachable s)
    (sid msg : String) :
    (jsGet s.users sid = none → stepS s (Ev.sendMessage sid msg) = (s, [])) ∧
    (∀ user, jsGet s.users sid = some user →
      ∃ room, jsGet s.rooms user.roomId = some room ∧
        stepS s (Ev.sendMessage sid msg) =
          ({ s with
               rooms := jsSet s.rooms user.roomId
                 { room with messages := room.messages ++ [msgOf s user sid msg] },
               clock := s.clock + 1 },
           [ { target := Target.toRoom user.roomId,
               payload := Payload.newMessage (msgOf s user sid msg) } ])) := by
  refine ⟨fun hu => stepS_sendMessage_none s sid msg hu, ?_⟩
  intro user hu
  obtain ⟨room, hroom, _⟩ := (reachable_inv s h).2.2.2.2 sid user hu
  exact ⟨room, hroom, stepS_sendMessage_some s sid msg user room hu hroom⟩

theorem send_message_no_op_or_broadcast_w :
    stepS initState (Ev.sendMessage "Z" "hello") = (initState, []) ∧
    (∃ room, jsGet twoMemberState.rooms userA.roomId = some room ∧
      stepS twoMemberState (Ev.sendMessage "A" "hi") =
        ({ twoMemberState with
             rooms := jsSet twoMemberState.rooms userA.roomId
               { room with messages := room.messages ++ [msgOf twoMemberState userA "A" "hi"] },
             clock := twoMemberState.clock + 1 },
         [ { target := Target.toRoom userA.roomId,
             payload := Payload.newMessage (msgOf twoMemberState userA "A" "hi") } ])) := by
  constructor
  · exact (send_message_no_op_or_broadcast initState Reachable.init "Z" "hello").1 (by decide)
  · exact (send_message_no_op_or_broadcast twoMemberState
      (Reachable.step _ _ (Reachable.step _ _ Reachable.init)) "A" "hi").2 userA (by decide)

/-- C9 counterexample: the relay implements directed delivery as an emit to
the socket.io room named by the target identifier; in a reachable state where
connection C has joined a chat room whose identifier is the string "B", an
offer from A targeted at connection B is also received by C — a third
connection observes the directed message, refuting the claim as stated. -/
theorem offer_leaks_to_third_party :
    Reachable collisionState ∧
    (stepS collisionState (Ev.webrtcOffer "A" "B" "sdp0")).1 = collisionState ∧
    (stepS collisionState (Ev.webrtcOffer "A" "B" "sdp0")).2 = [collisionEmit] ∧
    Receives collisionState collisionEmit "C" ∧
    ("C" : String) ≠ "A" ∧ ("C" : String) ≠ "B" :=
  ⟨Reachable.step _ _ Reachable.init, rfl, rfl, by decide, by decide, by decide⟩

/-- C9 (amended): provided no connection has joined a room whose identifier
equals the target's connection identifier (in particular in the spec's
scenario of three members sharing one ordinary room), each directed
signaling message — offer, answer, ICE candidate — from A targeted at B is
relayed as a single emit that B receives, that no other connection receives,
and whose payload carries `fromUserId` equal to A; the server state is
unchanged. -/
theorem directed_signaling_isolated
    (s : ServerState) (a b v : String) (hab : a ≠ b)
    (hnc : ∀ p ∈ s.socketRooms, p.1 ≠ b → b ∉ p.2) :
    ∀ e ∈ [Ev.webrtcOffer a b v, Ev.webrtcAnswer a b v, Ev.webrtcIce a b v],
      (stepS s e).1 = s ∧
      (∃ pl, (stepS s e).2 = [ { target := Target.toRoomExcept b a, payload := pl } ] ∧
        payloadSender pl = some a) ∧
      (∀ em ∈ (stepS s e).2,
        Receives s em b ∧ ∀ c, c ≠ b → ¬ Receives s em c) := by
  have hnosr : ∀ c, c ≠ b → b ∉ socketRoomsOf s c := by
    intro c hc hmem
    unfold socketRoomsOf at hmem
    rcases hsr : jsGet s.socketRooms c with _ | l
    · rw [hsr] at hmem
      simp at hmem
    · rw [hsr] at hmem
      exact hnc (c, l) (mem_of_jsGet_some _ _ _ hsr) hc hmem
  have hrecv : ∀ pl, Receives s { target := Target.toRoomExcept b a, payload := pl } b ∧
      ∀ c, c ≠ b → ¬ Receives s { target := Target.toRoomExcept b a, payload := pl } c := by
    intro pl
    constructor
    · exact ⟨fun hh => hab hh.symm, Or.inl rfl⟩
    · intro c hc hr
      rcases hr.2 with hcb | hmem
      · exact hc hcb
      · exact hnosr c hc hmem
  intro e he
  simp only [List.mem_cons, List.not_mem_nil, or_false] at he
  rcases he with he | he | he <;> subst he
  · refine ⟨rfl, ⟨Payload.offerMsg v a, rfl, rfl⟩, ?_⟩
    intro em hem
    simp only [stepS, List.mem_singleton] at hem
    subst hem
    exact hrecv _
  · refine ⟨rfl, ⟨Payload.answerMsg v a, rfl, rfl⟩, ?_⟩
    intro em hem
    simp only [stepS, List.mem_singleton] at hem
    subst hem
    exact hrecv _
  · refine ⟨rfl, ⟨Payload.iceMsg v a, rfl, rfl⟩, ?_⟩
    intro em hem
    simp only [stepS, List.mem_singleton] at hem
    subst hem
    exact hrecv _

theorem directed_signaling_isolated_w :
    Receives twoMemberState
      { target := Target.toRoomExcept "B" "A", payload := Payload.offerMsg "sdp" "A" } "B" ∧
    ¬ Receives twoMemberState
      { target := Target.toRoomExcept "B" "A", payload := Payload.offerMsg "sdp" "A" } "C" := by
  have h := directed_signaling_isolated twoMemberState "A" "B" "sdp" (by decide) (by decide)
  have h3 := (h (Ev.webrtcOffer "A" "B" "sdp") (by simp)).2.2
  have hm : (Emit.mk (Target.toRoomExcept "B" "A") (Payload.offerMsg "sdp" "A")) ∈ (stepS twoMemberState (Ev.webrtcOffer "A" "B" "sdp")).2 := by
    decide
  exact ⟨(h3 _ hm).1, (h3 _ hm).2 "C" (by decide)⟩

/-- C10: on every incoming offer the handler unconditionally allocates a
fresh peer connection (remote description from the offer, local description
the created answer, not closed), overwrites the peer-map entry for the
sender with it, sends the answer back — and leaves the previously stored
connection object untouched, in particular never closed, even though a link
to that sender already existed in a non-Idle state. -/
theorem offer_overwrites_link_without_close
    (cs : ClientState) (offer u : String) (oldId : Nat) (oldPc : PC)
    (hold : jsGet cs.peers u = some oldId)
    (holdPc : jsGet cs.pcs oldId = some oldPc)
    (hfresh : oldId < cs.nextId) :
    jsGet (handleOffer cs offer u).1.peers u = some cs.nextId ∧
    jsGet (handleOffer cs offer u).1.pcs cs.nextId =
      some { localDesc := some (mkAnswer offer), remoteDesc := some offer, candidates := [],
             tracksAttached := cs.localStream.isSome, closed := false } ∧
    oldId ≠ cs.nextId ∧
    jsGet (handleOffer cs offer u).1.pcs oldId = some oldPc ∧
    (handleOffer cs offer u).2 = [ClientOut.answerOut u (mkAnswer offer)] := by
  have hne : oldId ≠ cs.nextId := Nat.ne_of_lt hfresh
  simp only [handleOffer, createPeerConnection, updatePC]
  refine ⟨jsGet_set_self _ _ _, ?_, hne, ?_, trivial⟩
  · rw [jsGet_update_self, jsGet_update_self, jsGet_set_self]
    rfl
  · rw [jsGet_update_ne _ _ _ _ hne, jsGet_update_ne _ _ _ _ hne,
      jsGet_set_ne _ _ _ _ hne]
    exact holdPc

theorem offer_overwrites_link_without_close_w :
    jsGet (handleOffer watcherClient "sdpX" "A").1.peers "A" = some 1 ∧
    jsGet (handleOffer watcherClient "sdpX" "A").1.pcs 0 = some connectedPC ∧
    jsGet (handleOffer watcherClient "sdpX" "A").1.pcs 1 =
      some { localDesc := some (mkAnswer "sdpX"), remoteDesc := some "sdpX", candidates := [],
             tracksAttached := true, closed := false } := by
  have h := offer_overwrites_link_without_close watcherClient "sdpX" "A" 0 connectedPC
    (by decide) (by decide) (by decide)
  exact ⟨h.1, h.2.2.2.1, h.2.1⟩
